import Mathlib

/-!
# VstConnection: request registry and handler counter

A shallow embedding of `arango-cxx-driver/src/VstConnection.cpp`.

The connection object is a record of the fields the member functions read and
write. Every member function becomes a function from the record to the new
record together with the list of things it did to the outside world
(`Effect`): the asynchronous operations it handed to the reactor, the caller
callbacks it invoked, the timer and socket calls.

The sockets themselves, the bytes on the wire and the reference-counted
self-handle are outside the model. `VstConnection.h` is not among the
sources: the types of `_messageId` and `_handlercount`, the layout of
`MapItem` and the initial member values are taken from how the `.cpp` file
uses them.
-/

namespace Fuerte

/-- Number of values of `MessageID`, an unsigned 64-bit integer. Message ids
are kept as natural numbers; `++_messageId` is taken modulo this number. -/
def idModulus : Nat := 2 ^ 64

/-- Identity of a caller-supplied callback object (`OnErrorCallback`,
`OnSuccessCallback`). The body of a callback is the caller's business; the
model records which callback was invoked with which arguments. -/
abbrev Callback := Nat

/-- The part of `Request` the connection touches: the `messageid` field that
`sendRequest` writes; `payload` stands for everything else. -/
structure Request where
  messageid : Nat
  payload : Nat
deriving DecidableEq

/-- One value of `std::map<MessageID, MapItem>`. `_onError` and `_onSuccess`
are `std::function` objects (`none`: empty), `_request` is a
`std::unique_ptr<Request>` (`none`: null). -/
structure MapItem where
  _messageId : Nat
  _onError : Option Callback
  _onSuccess : Option Callback
  _request : Option Request
deriving DecidableEq

/-- What a member function does to the outside world. -/
inductive Effect where
  /-- The call `onError(code, std::move(request), nullptr)`. -/
  | onError (cb : Callback) (code : Nat) (request : Option Request)
  /-- A call of an `OnSuccessCallback`. No line of the file makes one. -/
  | onSuccess (cb : Callback)
  /-- The call `ba::async_connect(...)`, completion: `handleConnect`. -/
  | asyncConnect
  /-- The call `ba::async_read(...)`, completion: `handleRead`. -/
  | asyncRead
  /-- The call `ba::async_write(...)`, completion: `handleWrite(.., messageId)`. -/
  | asyncWrite (messageId : Nat) (request : Request)
  /-- The call `_deadline.expires_from_now(seconds)`. -/
  | deadlineExpires (seconds : Nat)
  /-- The call `_deadline.cancel()`. -/
  | deadlineCancel
  /-- The call `_sslSocket->shutdown()`. -/
  | sslShutdown
  /-- The call `_socket->shutdown(shutdown_both)`. -/
  | socketShutdown
  /-- The two `reset(new ...)` calls of `init_socket`. -/
  | socketReset
deriving DecidableEq

/-- Ways a member function fails to return normally. -/
inductive Fault where
  /-- The check `assert(_handlercount)` failed (build with assertions). -/
  | assertion
  /-- The wait loop of `shutdown_socket` did not exit within the fuel. -/
  | hang
  /-- An empty `std::function` was called (`std::bad_function_call`). -/
  | badFunctionCall
deriving DecidableEq

/-- The fields of `VstConnection` the member functions use. `_handlercount`
is only incremented, decremented and tested against zero; it is kept as an
integer so that a decrement at zero is visible. `_ssl` is
`_configuration._ssl`. -/
structure VstConnection where
  _messageId : Nat
  _messageMap : List (Nat × MapItem)
  _handlercount : Int
  _pleaseStop : Bool
  _stopped : Bool
  _ssl : Bool
deriving DecidableEq

/-- Result of a member function: the connection afterwards and what it did. -/
abbrev Outcome := Except Fault (VstConnection × List Effect)

namespace VstConnection

/-- Modelled from the spec: the member initialisers of `VstConnection.h`, which
is not among the sources. The constructor's initialiser list gives
`_pleaseStop(false)` and `_stopped(false)` and names neither `_messageId` nor
`_handlercount` nor `_messageMap`; the counter starts at 0 and is incremented
before use, the map starts empty and no handler is outstanding. The socket
pointers, which the initialiser list sets to null and `init_socket` replaces,
are outside the model: the runs below are runs of connections whose sockets
are set up. -/
def fresh (ssl : Bool) : VstConnection :=
  { _messageId := 0, _messageMap := [], _handlercount := 0,
    _pleaseStop := false, _stopped := false, _ssl := ssl }

/-- The keys of `_messageMap`. -/
def keys (s : VstConnection) : List Nat := s._messageMap.map Prod.fst

/-- The lookup `_messageMap.find(k)`. -/
def find (s : VstConnection) (k : Nat) : Option MapItem := s._messageMap.lookup k

/-- The value of `++_messageId` in 64-bit unsigned arithmetic. -/
def nextMessageId (s : VstConnection) : Nat := (s._messageId + 1) % idModulus

/-- The request after line 52, `request->messageid = ++_messageId`. -/
def stamp (s : VstConnection) (request : Request) : Request :=
  { request with messageid := nextMessageId s }

/-- The member function `startWrite`: nothing when `_pleaseStop`, else one
`async_write` whose completion handler captures `messageId`. The handler
counter is not touched. -/
def startWrite (s : VstConnection) (messageId : Nat) (request : Request) :
    VstConnection × List Effect :=
  if s._pleaseStop then (s, []) else (s, [Effect.asyncWrite messageId request])

/-- The member function `sendRequest`. The counter is incremented and the
request stamped first; `emplace` inserts only when the key is absent, and on
a present key the call ends in `onError(100, request, nullptr)`. -/
def sendRequest (s : VstConnection) (request : Request) (onError onSuccess : Callback) :
    VstConnection × List Effect :=
  let id := nextMessageId s
  let request := stamp s request
  let s1 := { s with _messageId := id }
  match s1._messageMap.lookup id with
  | some _ => (s1, [Effect.onError onError 100 (some request)])
  | none =>
    let itemRef : MapItem :=
      { _messageId := id, _onError := some onError, _onSuccess := some onSuccess,
        _request := some request }
    startWrite { s1 with _messageMap := (id, itemRef) :: s1._messageMap } id request

/-- The member function `init_socket`. -/
def init_socket (s : VstConnection) : VstConnection × List Effect :=
  ({ s with _pleaseStop := false, _stopped := false }, [Effect.socketReset])

/-- The loop `while(true){ if(!_handlercount) break; }` run for at most `fuel`
tests: `true` when it exits. Nothing inside the loop changes the counter. -/
def waitHandlers (handlercount : Int) : Nat → Bool
  | 0 => false
  | fuel + 1 => if handlercount = 0 then true else waitHandlers handlercount fuel

/-- The member function `shutdown_socket`; `fuel` bounds the tests of the
wait loop. The map is not touched. -/
def shutdown_socket (fuel : Nat) (s : VstConnection) : Outcome :=
  let s1 := { s with _pleaseStop := true }
  if waitHandlers s1._handlercount fuel then
    let s2 := { s1 with _stopped := true }
    let r := init_socket s2
    Except.ok (r.1, [Effect.deadlineCancel, Effect.sslShutdown, Effect.socketShutdown] ++ r.2)
  else
    Except.error Fault.hang

/-- The member function `startConnect`; `hasEndpoint` is
`endpointItr != resolver::iterator()`. -/
def startConnect (fuel : Nat) (s : VstConnection) (hasEndpoint : Bool) : Outcome :=
  if hasEndpoint then
    Except.ok ({ s with _handlercount := s._handlercount + 1 },
      [Effect.deadlineExpires 60, Effect.asyncConnect])
  else
    shutdown_socket fuel s

/-- The member function `startRead`. -/
def startRead (s : VstConnection) : VstConnection × List Effect :=
  if s._pleaseStop then (s, [])
  else ({ s with _handlercount := s._handlercount + 1 },
    [Effect.deadlineExpires 30, Effect.asyncRead])

/-- The member function `startHandshake`: its body is empty. -/
def startHandshake (s : VstConnection) : VstConnection × List Effect := (s, [])

/-- The statement `assert(_handlercount)`: a fault in a build with assertions
(`asserts = true`), nothing in a build without. -/
def assertHandlercount (asserts : Bool) (s : VstConnection) : Except Fault Unit :=
  if asserts && decide (s._handlercount = 0) then Except.error Fault.assertion
  else Except.ok ()

/-- The statement `--_handlercount`. -/
def decHandlercount (s : VstConnection) : VstConnection :=
  { s with _handlercount := s._handlercount - 1 }

/-- The member function `handleConnect`. -/
def handleConnect (asserts : Bool) (fuel : Nat) (s : VstConnection) (error : Bool) : Outcome :=
  match assertHandlercount asserts s with
  | Except.error f => Except.error f
  | Except.ok _ =>
    if !error then
      let r := if s._ssl then startHandshake s else startRead s
      Except.ok (decHandlercount r.1, r.2)
    else
      shutdown_socket fuel (decHandlercount s)

/-- The member function `handleHandshake`. -/
def handleHandshake (asserts : Bool) (s : VstConnection) : Outcome :=
  match assertHandlercount asserts s with
  | Except.error f => Except.error f
  | Except.ok _ =>
    let r := startRead s
    Except.ok (decHandlercount r.1, r.2)

/-- The member function `handleRead`; neither argument is looked at. -/
def handleRead (asserts : Bool) (s : VstConnection) (_error : Bool) : Outcome :=
  match assertHandlercount asserts s with
  | Except.error f => Except.error f
  | Except.ok _ =>
    let r := startRead s
    Except.ok (decHandlercount r.1, r.2)

/-- A value-initialised `MapItem`, what `_messageMap[k]` inserts for an absent
key. -/
def emptyItem : MapItem :=
  { _messageId := 0, _onError := none, _onSuccess := none, _request := none }

/-- A `MapItem` after `std::move` took its contents: the integer stays, the
`unique_ptr` is null and the two `std::function` members are empty. -/
def movedFrom (item : MapItem) : MapItem :=
  { item with _onError := none, _onSuccess := none, _request := none }

/-- The map after `item = std::move(_messageMap[k])`: `operator[]` inserts a
value-initialised item for an absent key, and the item under `k` is left
moved-from. No key is erased. -/
def moveOut (m : List (Nat × MapItem)) (k : Nat) : List (Nat × MapItem) :=
  match m.lookup k with
  | none => (k, movedFrom emptyItem) :: m
  | some _ => m.map (fun p => if p.1 = k then (p.1, movedFrom p.2) else p)

/-- The member function `handleWrite`. -/
def handleWrite (asserts : Bool) (s : VstConnection) (error : Bool) (messageid : Nat) :
    Outcome :=
  match assertHandlercount asserts s with
  | Except.error f => Except.error f
  | Except.ok _ =>
    if error then
      let item := (s._messageMap.lookup messageid).getD emptyItem
      let s1 := decHandlercount { s with _messageMap := moveOut s._messageMap messageid }
      match item._onError with
      | none => Except.error Fault.badFunctionCall
      | some cb => Except.ok (s1, [Effect.onError cb 100 item._request])
    else
      Except.ok (decHandlercount s, [])

end VstConnection

/-- The connection together with the reactor's side of it: the asynchronous
operations that were started and have not completed yet, and a record of what
the connection did to its callers. -/
structure Sys where
  /-- The connection object. -/
  conn : VstConnection
  /-- Outstanding `async_connect` operations. -/
  connects : Nat
  /-- Outstanding `async_read` operations. -/
  reads : Nat
  /-- Outstanding `async_write` operations, each with the id its handler captured. -/
  writes : List Nat
  /-- The id written into the request by each `sendRequest` call, in call order. -/
  stamped : List Nat
  /-- The ids of the calls whose `emplace` inserted, in call order. -/
  acceptedIds : List Nat
  /-- The callback invocations made so far, in order. -/
  calls : List Effect
  /-- How many times the sockets were shut down. -/
  shutdowns : Nat
deriving DecidableEq

/-- A reactor completion or a caller action. -/
inductive Event where
  /-- The caller calls `sendRequest(request, onError, onSuccess)`. -/
  | sendRequest (request : Request) (onError onSuccess : Callback)
  /-- An `async_connect` completes and `handleConnect` runs. -/
  | connectDone (error : Bool)
  /-- An `async_read` completes and `handleRead` runs. -/
  | readDone (error : Bool)
  /-- An `async_write` completes and `handleWrite(.., messageid)` runs. -/
  | writeDone (messageid : Nat) (error : Bool)
deriving DecidableEq

namespace Sys

/-- A connection with nothing outstanding and nothing recorded. -/
def start (conn : VstConnection) : Sys :=
  { conn := conn, connects := 0, reads := 0, writes := [], stamped := [],
    acceptedIds := [], calls := [], shutdowns := 0 }

/-- Book one effect of a member function. -/
def absorb (y : Sys) : Effect → Sys
  | Effect.asyncConnect => { y with connects := y.connects + 1 }
  | Effect.asyncRead => { y with reads := y.reads + 1 }
  | Effect.asyncWrite id _ => { y with writes := id :: y.writes }
  | Effect.onError cb code request =>
    { y with calls := y.calls ++ [Effect.onError cb code request] }
  | Effect.onSuccess cb => { y with calls := y.calls ++ [Effect.onSuccess cb] }
  | Effect.socketShutdown => { y with shutdowns := y.shutdowns + 1 }
  | _ => y

/-- Book the result of a member function. -/
def settle (y : Sys) (r : VstConnection × List Effect) : Sys :=
  r.2.foldl absorb { y with conn := r.1 }

/-- One event. `none`: the event cannot happen (no such operation is
outstanding) or the member function did not return. -/
def step (asserts : Bool) (fuel : Nat) (y : Sys) : Event → Option Sys
  | Event.sendRequest request onError onSuccess =>
    let id := y.conn.nextMessageId
    let y1 := { y with
      stamped := y.stamped ++ [(y.conn.stamp request).messageid],
      acceptedIds := if (y.conn.find id).isNone then y.acceptedIds ++ [id] else y.acceptedIds }
    some (y1.settle (y.conn.sendRequest request onError onSuccess))
  | Event.connectDone error =>
    if y.connects = 0 then none
    else match y.conn.handleConnect asserts fuel error with
      | Except.error _ => none
      | Except.ok r => some ({ y with connects := y.connects - 1 }.settle r)
  | Event.readDone error =>
    if y.reads = 0 then none
    else match y.conn.handleRead asserts error with
      | Except.error _ => none
      | Except.ok r => some ({ y with reads := y.reads - 1 }.settle r)
  | Event.writeDone messageid error =>
    if messageid ∈ y.writes then
      match y.conn.handleWrite asserts error messageid with
      | Except.error _ => none
      | Except.ok r => some ({ y with writes := y.writes.erase messageid }.settle r)
    else none

/-- A sequence of events, first to last. -/
def run (asserts : Bool) (fuel : Nat) : Sys → List Event → Option Sys
  | y, [] => some y
  | y, e :: es =>
    match y.step asserts fuel e with
    | none => none
    | some y1 => run asserts fuel y1 es

/-- Number of `sendRequest` calls in a sequence of events. -/
def countSends : List Event → Nat
  | [] => 0
  | Event.sendRequest _ _ _ :: es => countSends es + 1
  | _ :: es => countSends es

/-- Number of operations started and not completed. -/
def outstanding (y : Sys) : Nat := y.connects + y.reads + y.writes.length

end Sys

end Fuerte

namespace Fuerte

/-! ## Concrete runs

A connection whose sockets are set up and whose connect is outstanding. In
the first run a request is sent, its write fails, and a second request is
sent. In the second run a request is sent, the connect fails, the sockets are
shut down and the write fails. -/

/-- A connection with one `async_connect` outstanding, as `startConnect` leaves
it: the counter of handlers is 1, nothing was sent. -/
def demoStart : Sys :=
  { Sys.start { VstConnection.fresh false with _handlercount := 1 } with connects := 1 }

/-- The events of the first run. -/
def demoEvents : List Event :=
  [Event.sendRequest ⟨0, 9⟩ 7 8, Event.writeDone 1 true, Event.sendRequest ⟨0, 5⟩ 3 4]

/-- The connection after the first run. -/
def demoEnd : Sys :=
  { conn :=
      { _messageId := 2,
        _messageMap :=
          [(2, { _messageId := 2, _onError := some 3, _onSuccess := some 4,
                 _request := some ⟨2, 5⟩ }),
           (1, { _messageId := 1, _onError := none, _onSuccess := none, _request := none })],
        _handlercount := 0, _pleaseStop := false, _stopped := false, _ssl := false },
    connects := 1, reads := 0, writes := [2], stamped := [1, 2], acceptedIds := [1, 2],
    calls := [Effect.onError 7 100 (some ⟨1, 9⟩)], shutdowns := 0 }

/-- A connection with one request pending under key 1 and no handler
outstanding. -/
def demoPending : VstConnection :=
  (VstConnection.sendRequest (VstConnection.fresh false) ⟨0, 9⟩ 7 8).1

end Fuerte

namespace Fuerte

open VstConnection

/-! ## Registry lemmas -/

theorem lookup_eq_none_iff_not_mem_keys (m : List (Nat × MapItem)) (k : Nat) :
    m.lookup k = none ↔ k ∉ m.map Prod.fst := by
  induction m with
  | nil => simp
  | cons p m ih =>
    obtain ⟨a, b⟩ := p
    by_cases h : k = a
    · subst h; simp [List.lookup_cons]
    · have h1 : (k == a) = false := by simpa using h
      simp [List.lookup_cons, h1, ih, h]

theorem keys_moveOut_of_mem (m : List (Nat × MapItem)) (k : Nat)
    (h : k ∈ m.map Prod.fst) : (moveOut m k).map Prod.fst = m.map Prod.fst := by
  unfold moveOut
  cases hl : m.lookup k with
  | none => exact absurd h ((lookup_eq_none_iff_not_mem_keys m k).1 hl)
  | some v =>
    simp only [List.map_map]
    apply List.map_congr_left
    intro p _
    by_cases hp : p.1 = k <;> simp [hp]

theorem lookup_moveOut_of_ne (m : List (Nat × MapItem)) (k j : Nat) (h : j ≠ k) :
    (moveOut m k).lookup j = m.lookup j := by
  unfold moveOut
  cases hl : m.lookup k with
  | none =>
    have h1 : (j == k) = false := by simpa using h
    simp [List.lookup_cons, h1]
  | some v =>
    clear hl
    induction m with
    | nil => simp
    | cons p m ih =>
      obtain ⟨a, b⟩ := p
      by_cases ha : a = k
      · subst ha
        have h1 : (j == a) = false := by simpa using h
        simp [List.lookup_cons, h1, ih]
      · by_cases hj : j = a
        · subst hj; simp [List.lookup_cons, ha]
        · have h1 : (j == a) = false := by simpa using hj
          simp [List.lookup_cons, ha, h1, ih]

/-! ## Bookkeeping lemmas -/

theorem absorb_conn (y : Sys) (e : Effect) : (y.absorb e).conn = y.conn := by
  cases e <;> rfl

theorem absorb_stamped (y : Sys) (e : Effect) : (y.absorb e).stamped = y.stamped := by
  cases e <;> rfl

theorem absorb_acceptedIds (y : Sys) (e : Effect) :
    (y.absorb e).acceptedIds = y.acceptedIds := by
  cases e <;> rfl

theorem foldl_absorb_conn (effs : List Effect) (y : Sys) :
    (effs.foldl Sys.absorb y).conn = y.conn := by
  induction effs generalizing y with
  | nil => rfl
  | cons e es ih => simp [List.foldl_cons, ih, absorb_conn]

theorem foldl_absorb_stamped (effs : List Effect) (y : Sys) :
    (effs.foldl Sys.absorb y).stamped = y.stamped := by
  induction effs generalizing y with
  | nil => rfl
  | cons e es ih => simp [List.foldl_cons, ih, absorb_stamped]

theorem foldl_absorb_acceptedIds (effs : List Effect) (y : Sys) :
    (effs.foldl Sys.absorb y).acceptedIds = y.acceptedIds := by
  induction effs generalizing y with
  | nil => rfl
  | cons e es ih => simp [List.foldl_cons, ih, absorb_acceptedIds]

theorem foldl_absorb_writes (effs : List Effect) (y : Sys) (id : Nat)
    (h : id ∈ (effs.foldl Sys.absorb y).writes) :
    id ∈ y.writes ∨ ∃ q, Effect.asyncWrite id q ∈ effs := by
  induction effs generalizing y with
  | nil => exact Or.inl h
  | cons e es ih =>
    rw [List.foldl_cons] at h
    rcases ih _ h with h1 | ⟨q, hq⟩
    · cases e with
      | asyncWrite j q =>
        simp only [Sys.absorb, List.mem_cons] at h1
        rcases h1 with h1 | h1
        · subst h1; exact Or.inr ⟨q, by simp⟩
        · exact Or.inl h1
      | _ => exact Or.inl h1
    · exact Or.inr ⟨q, List.mem_cons_of_mem _ hq⟩

theorem settle_conn (y : Sys) (r : VstConnection × List Effect) : (y.settle r).conn = r.1 := by
  simp [Sys.settle, foldl_absorb_conn]

theorem settle_stamped (y : Sys) (r : VstConnection × List Effect) :
    (y.settle r).stamped = y.stamped := by
  simp [Sys.settle, foldl_absorb_stamped]

theorem settle_acceptedIds (y : Sys) (r : VstConnection × List Effect) :
    (y.settle r).acceptedIds = y.acceptedIds := by
  simp [Sys.settle, foldl_absorb_acceptedIds]

theorem settle_writes (y : Sys) (r : VstConnection × List Effect) (id : Nat)
    (h : id ∈ (y.settle r).writes) : id ∈ y.writes ∨ ∃ q, Effect.asyncWrite id q ∈ r.2 := by
  simpa [Sys.settle] using foldl_absorb_writes r.2 { y with conn := r.1 } id h

/-! ## What each member function leaves alone -/

theorem shutdown_socket_ok {fuel : Nat} {s : VstConnection} {r : VstConnection × List Effect}
    (h : shutdown_socket fuel s = Except.ok r) :
    r.1 = { s with _pleaseStop := false, _stopped := false }
      ∧ r.2 = [Effect.deadlineCancel, Effect.sslShutdown, Effect.socketShutdown,
               Effect.socketReset]
      ∧ s._handlercount = 0 := by
  unfold shutdown_socket at h
  simp only [init_socket] at h
  split at h
  · rename_i hw
    injection h with h
    subst h
    refine ⟨rfl, rfl, ?_⟩
    cases fuel with
    | zero => simp [waitHandlers] at hw
    | succ n =>
      by_contra hne
      have : ∀ k, waitHandlers s._handlercount k = false := by
        intro k
        induction k with
        | zero => rfl
        | succ k ih => simp [waitHandlers, hne, ih]
      simp [this] at hw
  · cases h

theorem shutdown_socket_of_zero (fuel : Nat) (s : VstConnection) (h : s._handlercount = 0) :
    shutdown_socket (fuel + 1) s
      = Except.ok ({ s with _pleaseStop := false, _stopped := false },
          [Effect.deadlineCancel, Effect.sslShutdown, Effect.socketShutdown,
           Effect.socketReset]) := by
  simp [shutdown_socket, waitHandlers, h, init_socket]

theorem waitHandlers_of_ne (handlercount : Int) (h : handlercount ≠ 0) (fuel : Nat) :
    waitHandlers handlercount fuel = false := by
  induction fuel with
  | zero => rfl
  | succ k ih => simp [waitHandlers, h, ih]

theorem shutdown_socket_of_ne (fuel : Nat) (s : VstConnection) (h : s._handlercount ≠ 0) :
    shutdown_socket fuel s = Except.error Fault.hang := by
  simp [shutdown_socket, waitHandlers_of_ne _ h]

theorem handleConnect_ok {asserts : Bool} {fuel : Nat} {s : VstConnection} {error : Bool}
    {r : VstConnection × List Effect} (h : handleConnect asserts fuel s error = Except.ok r) :
    r.1._messageId = s._messageId ∧ r.1._messageMap = s._messageMap
      ∧ ∀ id q, Effect.asyncWrite id q ∉ r.2 := by
  unfold handleConnect at h
  split at h
  · cases h
  · split at h
    · injection h with h
      subst h
      by_cases hs : s._ssl <;> by_cases hp : s._pleaseStop <;>
        simp [hs, hp, startRead, startHandshake, decHandlercount]
    · obtain ⟨h1, h2, _⟩ := shutdown_socket_ok h
      rw [h1, h2]
      simp [decHandlercount]

theorem handleRead_ok {asserts : Bool} {s : VstConnection} {error : Bool}
    {r : VstConnection × List Effect} (h : handleRead asserts s error = Except.ok r) :
    r.1._messageId = s._messageId ∧ r.1._messageMap = s._messageMap
      ∧ ∀ id q, Effect.asyncWrite id q ∉ r.2 := by
  unfold handleRead at h
  split at h
  · cases h
  · injection h with h
    subst h
    by_cases hp : s._pleaseStop <;> simp [hp, startRead, decHandlercount]

theorem handleWrite_ok {asserts : Bool} {s : VstConnection} {error : Bool} {k : Nat}
    {r : VstConnection × List Effect} (h : handleWrite asserts s error k = Except.ok r) :
    r.1._messageId = s._messageId
      ∧ (r.1._messageMap = s._messageMap ∨ r.1._messageMap = moveOut s._messageMap k)
      ∧ ∀ id q, Effect.asyncWrite id q ∉ r.2 := by
  unfold handleWrite at h
  split at h
  · cases h
  · split at h
    · simp only at h
      split at h
      · cases h
      · injection h with h
        subst h
        simp [decHandlercount]
    · injection h with h
      subst h
      simp [decHandlercount]

theorem sendRequest_messageId (s : VstConnection) (request : Request)
    (onError onSuccess : Callback) :
    (sendRequest s request onError onSuccess).1._messageId = nextMessageId s := by
  unfold sendRequest
  simp only
  split
  · rfl
  · simp only [startWrite]; split <;> rfl

theorem sendRequest_keys (s : VstConnection) (request : Request)
    (onError onSuccess : Callback) :
    (sendRequest s request onError onSuccess).1.keys
      = if (s.find (nextMessageId s)).isNone then nextMessageId s :: s.keys else s.keys := by
  unfold sendRequest
  simp only [find]
  split
  · rename_i h; simp [h, keys]
  · rename_i h; simp only [startWrite, h]; split <;> simp [keys]

theorem sendRequest_writes (s : VstConnection) (request : Request)
    (onError onSuccess : Callback) (id : Nat) (q : Request)
    (h : Effect.asyncWrite id q ∈ (sendRequest s request onError onSuccess).2) :
    id = nextMessageId s ∧ (s.find (nextMessageId s)).isNone := by
  unfold sendRequest at h
  simp only [find] at h ⊢
  split at h
  · simp at h
  · rename_i hl
    simp only [startWrite] at h
    split at h
    · simp at h
    · simp at h; simp [h.1, hl]

/-! ## One event -/

theorem step_sendRequest {asserts : Bool} {fuel : Nat} {y y1 : Sys} {request : Request}
    {onError onSuccess : Callback}
    (h : y.step asserts fuel (Event.sendRequest request onError onSuccess) = some y1) :
    y1.conn = (sendRequest y.conn request onError onSuccess).1
      ∧ y1.stamped = y.stamped ++ [nextMessageId y.conn]
      ∧ y1.acceptedIds = (if (y.conn.find (nextMessageId y.conn)).isNone
          then y.acceptedIds ++ [nextMessageId y.conn] else y.acceptedIds)
      ∧ ∀ id ∈ y1.writes, id ∈ y.writes ∨
          (id = nextMessageId y.conn ∧ (y.conn.find (nextMessageId y.conn)).isNone) := by
  simp only [Sys.step, Option.some.injEq] at h
  subst h
  refine ⟨settle_conn _ _, ?_, ?_, ?_⟩
  · rw [settle_stamped]; rfl
  · rw [settle_acceptedIds]
  · intro id hid
    rcases settle_writes _ _ id hid with h1 | ⟨q, hq⟩
    · exact Or.inl h1
    · exact Or.inr (sendRequest_writes _ _ _ _ _ _ hq)

theorem step_completion {asserts : Bool} {fuel : Nat} {y y1 : Sys} {e : Event}
    (hne : ∀ request onError onSuccess, e ≠ Event.sendRequest request onError onSuccess)
    (h : y.step asserts fuel e = some y1) :
    y1.conn._messageId = y.conn._messageId
      ∧ y1.stamped = y.stamped
      ∧ y1.acceptedIds = y.acceptedIds
      ∧ (y1.conn._messageMap = y.conn._messageMap
          ∨ ∃ k ∈ y.writes, y1.conn._messageMap = moveOut y.conn._messageMap k)
      ∧ ∀ id ∈ y1.writes, id ∈ y.writes := by
  cases e with
  | sendRequest request onError onSuccess => exact absurd rfl (hne request onError onSuccess)
  | connectDone error =>
    simp only [Sys.step] at h
    split at h
    · cases h
    · split at h
      · cases h
      · rename_i r hr
        injection h with h
        subst h
        obtain ⟨h1, h2, h3⟩ := handleConnect_ok hr
        refine ⟨by rw [settle_conn, h1], by rw [settle_stamped], by rw [settle_acceptedIds],
          Or.inl (by rw [settle_conn, h2]), ?_⟩
        intro id hid
        rcases settle_writes _ _ id hid with h4 | ⟨q, hq⟩
        · exact h4
        · exact absurd hq (h3 id q)
  | readDone error =>
    simp only [Sys.step] at h
    split at h
    · cases h
    · split at h
      · cases h
      · rename_i r hr
        injection h with h
        subst h
        obtain ⟨h1, h2, h3⟩ := handleRead_ok hr
        refine ⟨by rw [settle_conn, h1], by rw [settle_stamped], by rw [settle_acceptedIds],
          Or.inl (by rw [settle_conn, h2]), ?_⟩
        intro id hid
        rcases settle_writes _ _ id hid with h4 | ⟨q, hq⟩
        · exact h4
        · exact absurd hq (h3 id q)
  | writeDone k error =>
    simp only [Sys.step] at h
    split at h
    · rename_i hk
      split at h
      · cases h
      · rename_i r hr
        injection h with h
        subst h
        obtain ⟨h1, h2, h3⟩ := handleWrite_ok hr
        refine ⟨by rw [settle_conn, h1], by rw [settle_stamped], by rw [settle_acceptedIds],
          ?_, ?_⟩
        · rw [settle_conn]
          rcases h2 with h2 | h2
          · exact Or.inl h2
          · exact Or.inr ⟨k, hk, h2⟩
        · intro id hid
          rcases settle_writes _ _ id hid with h4 | ⟨q, hq⟩
          · exact List.mem_of_mem_erase h4
          · exact absurd hq (h3 id q)
    · cases h

theorem nextMessageId_of_lt {s : VstConnection} (h : s._messageId + 1 < idModulus) :
    nextMessageId s = s._messageId + 1 := by
  unfold nextMessageId
  exact Nat.mod_eq_of_lt h

/-! ## Sequences of events -/

theorem run_cons {asserts : Bool} {fuel : Nat} {y0 y : Sys} {e : Event} {es : List Event}
    (h : Sys.run asserts fuel y0 (e :: es) = some y) :
    ∃ y1, y0.step asserts fuel e = some y1 ∧ Sys.run asserts fuel y1 es = some y := by
  simp only [Sys.run] at h
  split at h
  · cases h
  · rename_i y1 h1; exact ⟨y1, h1, h⟩

theorem run_append (asserts : Bool) (fuel : Nat) (es fs : List Event) (y0 y1 : Sys)
    (h : Sys.run asserts fuel y0 es = some y1) :
    Sys.run asserts fuel y0 (es ++ fs) = Sys.run asserts fuel y1 fs := by
  induction es generalizing y0 with
  | nil => simp only [Sys.run, Option.some.injEq] at h; subst h; rfl
  | cons e es ih =>
    obtain ⟨y2, h2, h3⟩ := run_cons h
    simp only [List.cons_append, Sys.run, h2]
    exact ih y2 h3

/-- While the counter does not wrap, it has advanced by the number of
`sendRequest` calls, the ids stamped are the consecutive values after the
starting counter, every key of the map lies between 1 and the counter, every
outstanding write is for a key of the map, and every call was accepted. -/
theorem run_noWrap (asserts : Bool) (fuel : Nat) (es : List Event) (y0 y : Sys)
    (h : Sys.run asserts fuel y0 es = some y)
    (hw : y0.conn._messageId + Sys.countSends es < idModulus)
    (hk : ∀ k ∈ y0.conn.keys, 1 ≤ k ∧ k ≤ y0.conn._messageId)
    (hp : ∀ id ∈ y0.writes, id ∈ y0.conn.keys) :
    y.conn._messageId = y0.conn._messageId + Sys.countSends es
      ∧ y.stamped = y0.stamped ++ List.range' (y0.conn._messageId + 1) (Sys.countSends es)
      ∧ y.acceptedIds
          = y0.acceptedIds ++ List.range' (y0.conn._messageId + 1) (Sys.countSends es)
      ∧ (∀ k ∈ y.conn.keys, 1 ≤ k ∧ k ≤ y.conn._messageId)
      ∧ (∀ id ∈ y.writes, id ∈ y.conn.keys) := by
  induction es generalizing y0 with
  | nil =>
    simp only [Sys.run, Option.some.injEq] at h
    subst h
    simp only [Sys.countSends, Nat.add_zero, List.range'_zero, List.append_nil, true_and]
    exact ⟨hk, hp⟩
  | cons e es ih =>
    obtain ⟨y1, h1, h2⟩ := run_cons h
    by_cases hs : ∃ request onError onSuccess, e = Event.sendRequest request onError onSuccess
    · obtain ⟨request, onError, onSuccess, rfl⟩ := hs
      simp only [Sys.countSends] at hw ⊢
      obtain ⟨c1, c2, c3, c4⟩ := step_sendRequest h1
      have hlt : y0.conn._messageId + 1 < idModulus := by omega
      have hn : nextMessageId y0.conn = y0.conn._messageId + 1 := nextMessageId_of_lt hlt
      have habs : y0.conn.find (nextMessageId y0.conn) = none := by
        rw [find, lookup_eq_none_iff_not_mem_keys, hn]
        intro hmem
        have := (hk _ hmem).2
        omega
      have hid : y1.conn._messageId = y0.conn._messageId + 1 := by
        rw [c1, sendRequest_messageId, hn]
      have hkeys : y1.conn.keys = (y0.conn._messageId + 1) :: y0.conn.keys := by
        rw [c1, sendRequest_keys, habs, hn]; rfl
      have ih1 := ih y1 h2 (by rw [hid]; omega)
        (by
          intro k hk1
          rw [hkeys, List.mem_cons] at hk1
          rw [hid]
          rcases hk1 with hk1 | hk1
          · omega
          · have := hk k hk1; omega)
        (by
          intro id hid1
          rw [hkeys, List.mem_cons]
          rcases c4 id hid1 with h3 | ⟨h3, _⟩
          · exact Or.inr (hp id h3)
          · exact Or.inl (by rw [h3, hn]))
      obtain ⟨i1, i2, i3, i4, i5⟩ := ih1
      refine ⟨by rw [i1, hid]; omega, ?_, ?_, i4, i5⟩
      · rw [i2, c2, hn, hid, List.append_assoc]
        congr 1
      · rw [i3, c3, habs, hn, hid]
        simp only [Option.isNone_none, if_true, List.append_assoc]
        congr 1
    · have hne : ∀ request onError onSuccess,
          e ≠ Event.sendRequest request onError onSuccess :=
        fun a b c hc => hs ⟨a, b, c, hc⟩
      have hcs : Sys.countSends (e :: es) = Sys.countSends es := by
        cases e with
        | sendRequest a b c => exact absurd rfl (hne a b c)
        | _ => rfl
      rw [hcs] at hw ⊢
      obtain ⟨c1, c2, c3, c4, c5⟩ := step_completion hne h1
      have hkeys : y1.conn.keys = y0.conn.keys := by
        rcases c4 with c4 | ⟨k, hk1, c4⟩
        · simp [keys, c4]
        · simp only [keys, c4]
          exact keys_moveOut_of_mem _ _ (hp k hk1)
      have ih1 := ih y1 h2 (by rw [c1]; exact hw)
        (by rw [hkeys, c1]; exact hk)
        (by intro id hid1; rw [hkeys]; exact hp id (c5 id hid1))
      rw [c1, c2, c3] at ih1
      exact ih1

/-- The counter and the stamped ids along any sequence of events that does not
wrap the counter, whatever the map holds. -/
theorem run_stamped (asserts : Bool) (fuel : Nat) (es : List Event) (y0 y : Sys)
    (h : Sys.run asserts fuel y0 es = some y)
    (hw : y0.conn._messageId + Sys.countSends es < idModulus) :
    y.conn._messageId = y0.conn._messageId + Sys.countSends es
      ∧ y.stamped = y0.stamped ++ List.range' (y0.conn._messageId + 1) (Sys.countSends es) := by
  induction es generalizing y0 with
  | nil =>
    simp only [Sys.run, Option.some.injEq] at h
    subst h
    simp [Sys.countSends]
  | cons e es ih =>
    obtain ⟨y1, h1, h2⟩ := run_cons h
    by_cases hs : ∃ request onError onSuccess, e = Event.sendRequest request onError onSuccess
    · obtain ⟨request, onError, onSuccess, rfl⟩ := hs
      simp only [Sys.countSends] at hw ⊢
      obtain ⟨c1, c2, _, _⟩ := step_sendRequest h1
      have hlt : y0.conn._messageId + 1 < idModulus := by omega
      have hn : nextMessageId y0.conn = y0.conn._messageId + 1 := nextMessageId_of_lt hlt
      have hid : y1.conn._messageId = y0.conn._messageId + 1 := by
        rw [c1, sendRequest_messageId, hn]
      obtain ⟨i1, i2⟩ := ih y1 h2 (by rw [hid]; omega)
      refine ⟨by rw [i1, hid]; omega, ?_⟩
      rw [i2, c2, hn, hid, List.append_assoc]
      congr 1
    · have hne : ∀ request onError onSuccess,
          e ≠ Event.sendRequest request onError onSuccess :=
        fun a b c hc => hs ⟨a, b, c, hc⟩
      have hcs : Sys.countSends (e :: es) = Sys.countSends es := by
        cases e with
        | sendRequest a b c => exact absurd rfl (hne a b c)
        | _ => rfl
      rw [hcs] at hw ⊢
      obtain ⟨c1, c2, _, _, _⟩ := step_completion hne h1
      have ih1 := ih y1 h2 (by rw [c1]; exact hw)
      rw [c1, c2] at ih1
      exact ih1

theorem countSends_replicate (n : Nat) (request : Request) (onError onSuccess : Callback) :
    Sys.countSends (List.replicate n (Event.sendRequest request onError onSuccess)) = n := by
  induction n with
  | zero => rfl
  | succ n ih => simp [List.replicate_succ, Sys.countSends, ih]

theorem run_replicate_sendRequest (asserts : Bool) (fuel : Nat) (n : Nat) (request : Request)
    (onError onSuccess : Callback) (y0 : Sys) :
    ∃ y, Sys.run asserts fuel y0
      (List.replicate n (Event.sendRequest request onError onSuccess)) = some y := by
  induction n generalizing y0 with
  | zero => exact ⟨y0, rfl⟩
  | succ n ih =>
    simp only [List.replicate_succ, Sys.run, Sys.step]
    exact ih _

theorem length_le_length_moveOut (m : List (Nat × MapItem)) (k : Nat) :
    m.length ≤ (moveOut m k).length := by
  unfold moveOut
  split <;> simp

theorem step_keys_length_le {asserts : Bool} {fuel : Nat} {y y1 : Sys} {e : Event}
    (h : y.step asserts fuel e = some y1) : y.conn.keys.length ≤ y1.conn.keys.length := by
  by_cases hs : ∃ request onError onSuccess, e = Event.sendRequest request onError onSuccess
  · obtain ⟨request, onError, onSuccess, rfl⟩ := hs
    obtain ⟨c1, _, _, _⟩ := step_sendRequest h
    rw [c1, sendRequest_keys]
    split <;> simp
  · obtain ⟨_, _, _, c4, _⟩ := step_completion (fun a b c hc => hs ⟨a, b, c, hc⟩) h
    rcases c4 with c4 | ⟨k, _, c4⟩
    · simp [keys, c4]
    · simp only [keys, c4, List.length_map]
      exact length_le_length_moveOut _ _

theorem run_keys_length_le {asserts : Bool} {fuel : Nat} (es : List Event) (y0 y : Sys)
    (h : Sys.run asserts fuel y0 es = some y) : y0.conn.keys.length ≤ y.conn.keys.length := by
  induction es generalizing y0 with
  | nil =>
    simp only [Sys.run, Option.some.injEq] at h
    subst h
    exact Nat.le_refl _
  | cons e es ih =>
    obtain ⟨y1, h1, h2⟩ := run_cons h
    exact Nat.le_trans (step_keys_length_le h1) (ih y1 h2)

/-- No key is ever erased, so a run that wraps the counter ends with at least
`2 ^ 64` keys in the map: a run that ends with fewer has not wrapped. -/
theorem run_fits (asserts : Bool) (fuel : Nat) (es : List Event) (y0 y : Sys)
    (h : Sys.run asserts fuel y0 es = some y)
    (hk : ∀ k ∈ y0.conn.keys, 1 ≤ k ∧ k ≤ y0.conn._messageId)
    (hp : ∀ id ∈ y0.writes, id ∈ y0.conn.keys)
    (hl : y0.conn.keys.length = y0.conn._messageId)
    (hc : y0.conn._messageId < idModulus)
    (hfit : y.conn.keys.length < idModulus) :
    y0.conn._messageId + Sys.countSends es < idModulus := by
  induction es generalizing y0 with
  | nil => simpa [Sys.countSends] using hc
  | cons e es ih =>
    obtain ⟨y1, h1, h2⟩ := run_cons h
    by_cases hs : ∃ request onError onSuccess, e = Event.sendRequest request onError onSuccess
    · obtain ⟨request, onError, onSuccess, rfl⟩ := hs
      simp only [Sys.countSends]
      obtain ⟨c1, _, _, c4⟩ := step_sendRequest h1
      by_cases hlt : y0.conn._messageId + 1 < idModulus
      · have hn : nextMessageId y0.conn = y0.conn._messageId + 1 := nextMessageId_of_lt hlt
        have habs : y0.conn.find (nextMessageId y0.conn) = none := by
          rw [find, lookup_eq_none_iff_not_mem_keys, hn]
          intro hmem
          have := (hk _ hmem).2
          omega
        have hid : y1.conn._messageId = y0.conn._messageId + 1 := by
          rw [c1, sendRequest_messageId, hn]
        have hkeys : y1.conn.keys = (y0.conn._messageId + 1) :: y0.conn.keys := by
          rw [c1, sendRequest_keys, habs, hn]; rfl
        have ih1 := ih y1 h2
          (by
            intro k hk1
            rw [hkeys, List.mem_cons] at hk1
            rw [hid]
            rcases hk1 with hk1 | hk1
            · omega
            · have := hk k hk1; omega)
          (by
            intro id hid1
            rw [hkeys, List.mem_cons]
            rcases c4 id hid1 with h3 | ⟨h3, _⟩
            · exact Or.inr (hp id h3)
            · exact Or.inl (by rw [h3, hn]))
          (by rw [hkeys, hid, List.length_cons, hl])
          (by rw [hid]; exact hlt)
        rw [hid] at ih1
        omega
      · exfalso
        have hM : y0.conn._messageId + 1 = idModulus := by omega
        have hn : nextMessageId y0.conn = 0 := by
          unfold nextMessageId
          rw [hM]
          exact Nat.mod_self _
        have habs : y0.conn.find (nextMessageId y0.conn) = none := by
          rw [find, lookup_eq_none_iff_not_mem_keys, hn]
          intro hmem
          have := (hk _ hmem).1
          omega
        have hkeys : y1.conn.keys = 0 :: y0.conn.keys := by
          rw [c1, sendRequest_keys, habs, hn]; rfl
        have hlen : y1.conn.keys.length = idModulus := by
          rw [hkeys, List.length_cons, hl, hM]
        have := run_keys_length_le es y1 y h2
        omega
    · have hne : ∀ request onError onSuccess,
          e ≠ Event.sendRequest request onError onSuccess :=
        fun a b c hc => hs ⟨a, b, c, hc⟩
      have hcs : Sys.countSends (e :: es) = Sys.countSends es := by
        cases e with
        | sendRequest a b c => exact absurd rfl (hne a b c)
        | _ => rfl
      rw [hcs]
      obtain ⟨c1, _, _, c4, c5⟩ := step_completion hne h1
      have hkeys : y1.conn.keys = y0.conn.keys := by
        rcases c4 with c4 | ⟨k, hk1, c4⟩
        · simp [keys, c4]
        · simp only [keys, c4]
          exact keys_moveOut_of_mem _ _ (hp k hk1)
      have ih1 := ih y1 h2 (by rw [hkeys, c1]; exact hk)
        (by intro id hid1; rw [hkeys]; exact hp id (c5 id hid1))
        (by rw [hkeys, c1]; exact hl) (by rw [c1]; exact hc)
      rw [c1] at ih1
      exact ih1

/-! ## sendRequest: duplicate ids and insertion -/

/-- C3. When the id about to be assigned (the counter plus one, in 64-bit
arithmetic) is already a key of the map, `sendRequest` invokes `onError` once
with code 100 and the caller's request, invokes nothing else, starts no write
and leaves the map as it was. When the id is not a key, the map gains exactly
that key, holding the request and both callbacks, every other key keeps its
entry, and no callback is invoked. -/
theorem sendRequest_duplicate_or_insert (s : VstConnection) (request : Request)
    (onError onSuccess : Callback) :
    (s.find (nextMessageId s) ≠ none →
      (sendRequest s request onError onSuccess).2
          = [Effect.onError onError 100 (some (stamp s request))]
        ∧ (stamp s request).payload = request.payload
        ∧ (sendRequest s request onError onSuccess).1._messageMap = s._messageMap)
    ∧ (s.find (nextMessageId s) = none →
      (sendRequest s request onError onSuccess).1.keys = nextMessageId s :: s.keys
        ∧ (sendRequest s request onError onSuccess).1.find (nextMessageId s)
            = some { _messageId := nextMessageId s, _onError := some onError,
                     _onSuccess := some onSuccess, _request := some (stamp s request) }
        ∧ (∀ k, k ≠ nextMessageId s →
            (sendRequest s request onError onSuccess).1.find k = s.find k)
        ∧ (∀ e ∈ (sendRequest s request onError onSuccess).2,
            e = Effect.asyncWrite (nextMessageId s) (stamp s request))) := by
  constructor
  · intro h
    obtain ⟨v, hv⟩ := Option.ne_none_iff_exists'.1 h
    simp only [find] at hv
    simp [sendRequest, hv, stamp]
  · intro h
    simp only [find] at h
    refine ⟨?_, ?_, ?_, ?_⟩
    · simp only [sendRequest, h, startWrite, keys]
      split <;> simp
    · simp only [sendRequest, h, startWrite, find]
      split <;> simp [List.lookup_cons]
    · intro k hk
      have h1 : (k == nextMessageId s) = false := by simpa using hk
      simp only [sendRequest, h, startWrite, find]
      split <;> simp [List.lookup_cons, h1]
    · intro e he
      simp only [sendRequest, h, startWrite] at he
      split at he <;> simp at he
      exact he

/-- C3 at two concrete connections: one whose next id 1 is already a key, and
a fresh one. -/
theorem sendRequest_duplicate_or_insert_witness :
    (sendRequest { fresh false with _messageMap := [(1, emptyItem)] } ⟨0, 9⟩ 7 8).2
        = [Effect.onError 7 100 (some ⟨1, 9⟩)]
      ∧ (sendRequest (fresh false) ⟨0, 9⟩ 7 8).1.keys = [1] :=
  ⟨((sendRequest_duplicate_or_insert
        { fresh false with _messageMap := [(1, emptyItem)] } ⟨0, 9⟩ 7 8).1 (by decide)).1,
   ((sendRequest_duplicate_or_insert (fresh false) ⟨0, 9⟩ 7 8).2 (by decide)).1⟩

/-! ## Message ids -/

/-- C2. Along any sequence of events on one connection in which the 64-bit
counter does not wrap, the ids stamped on the requests by the `sendRequest`
calls are strictly increasing in call order, pairwise distinct and never 0,
one per call. For an accepted call the stamped id is the key of the new entry
and the value of its `_messageId` field, and the entry owns the stamped
request. -/
theorem stamped_ids_strictly_increasing (asserts : Bool) (fuel : Nat) (es : List Event)
    (y0 y : Sys) (hs : y0.stamped = [])
    (h : Sys.run asserts fuel y0 es = some y)
    (hw : y0.conn._messageId + Sys.countSends es < idModulus) :
    List.Pairwise (fun a b => a < b) y.stamped
      ∧ y.stamped.Nodup
      ∧ 0 ∉ y.stamped
      ∧ y.stamped.length = Sys.countSends es
      ∧ ∀ (s : VstConnection) (request : Request) (onError onSuccess : Callback),
          s.find (nextMessageId s) = none →
          ∃ item, (sendRequest s request onError onSuccess).1.find (stamp s request).messageid
              = some item
            ∧ item._messageId = (stamp s request).messageid
            ∧ item._request = some (stamp s request) := by
  obtain ⟨_, h2⟩ := run_stamped asserts fuel es y0 y h hw
  rw [hs, List.nil_append] at h2
  rw [h2]
  refine ⟨List.pairwise_lt_range' _ _, List.nodup_range' _ _, ?_, List.length_range' _ _ _, ?_⟩
  · simp
  · intro s request onError onSuccess hnone
    simp only [find] at hnone
    refine ⟨{ _messageId := nextMessageId s, _onError := some onError,
              _onSuccess := some onSuccess, _request := some (stamp s request) }, ?_, rfl, rfl⟩
    simp only [sendRequest, hnone, startWrite, find, stamp]
    split <;> simp [List.lookup_cons]

/-- C2 at the concrete run: the two calls stamp 1 and 2. -/
theorem stamped_ids_strictly_increasing_witness :
    Sys.run true 1 demoStart demoEvents = some demoEnd
      ∧ demoStart.conn._messageId + Sys.countSends demoEvents < idModulus
      ∧ demoEnd.stamped = [1, 2]
      ∧ List.Pairwise (fun a b => a < b) demoEnd.stamped
      ∧ demoEnd.stamped.Nodup
      ∧ 0 ∉ demoEnd.stamped :=
  have h := stamped_ids_strictly_increasing true 1 demoEvents demoStart demoEnd rfl
    (by decide) (by decide)
  ⟨by decide, by decide, rfl, h.1, h.2.1, h.2.2.1⟩

/-! ## Keys of the registry -/

/-- C7. In every state reached from a fresh connection (counter 0, empty map,
no write outstanding) by `sendRequest` calls and completion handlers,
`handleWrite` running only for ids handed to `startWrite`, every key `k` of
the map satisfies `1 ≤ k ≤ _messageId`. The state is one a program can hold:
its map has fewer than `2 ^ 64` entries. Since no key is ever erased, that
alone rules out a wrapped counter. -/
theorem keys_issued_by_counter (asserts : Bool) (fuel : Nat) (es : List Event) (y0 y : Sys)
    (h0 : y0.conn._messageId = 0) (hm : y0.conn._messageMap = []) (hp : y0.writes = [])
    (h : Sys.run asserts fuel y0 es = some y)
    (hfit : y.conn.keys.length < idModulus) :
    ∀ k ∈ y.conn.keys, 1 ≤ k ∧ k ≤ y.conn._messageId := by
  have hw := run_fits asserts fuel es y0 y h (by simp [keys, hm]) (by simp [hp])
    (by simp [keys, hm, h0]) (by rw [h0]; decide) hfit
  exact (run_noWrap asserts fuel es y0 y h hw (by simp [keys, hm]) (by simp [hp])).2.2.2.1

/-- C7 at the first concrete run: the keys are 2 and 1, the counter is 2. -/
theorem keys_issued_by_counter_witness :
    Sys.run true 1 demoStart demoEvents = some demoEnd
      ∧ demoEnd.conn.keys = [2, 1]
      ∧ demoEnd.conn.keys.length < idModulus
      ∧ ∀ k ∈ demoEnd.conn.keys, 1 ≤ k ∧ k ≤ demoEnd.conn._messageId :=
  ⟨by decide, rfl, by decide,
   keys_issued_by_counter true 1 demoEvents demoStart demoEnd rfl rfl rfl
     (by decide) (by decide)⟩

/-! ## The counter and the accepted calls -/

/-- C8. In every state reached from a fresh connection (counter 0, empty map,
no write outstanding, nothing recorded) without wrapping the counter, the
counter equals the number of accepted `sendRequest` calls, and that is the
number of all `sendRequest` calls: each call was accepted under the id it
stamped, none was rejected as a duplicate. -/
theorem counter_counts_accepted (asserts : Bool) (fuel : Nat) (es : List Event) (y0 y : Sys)
    (h0 : y0.conn._messageId = 0) (hm : y0.conn._messageMap = []) (hp : y0.writes = [])
    (hs : y0.stamped = []) (ha : y0.acceptedIds = [])
    (h : Sys.run asserts fuel y0 es = some y)
    (hw : Sys.countSends es < idModulus) :
    y.conn._messageId = y.acceptedIds.length
      ∧ y.acceptedIds.length = Sys.countSends es
      ∧ y.acceptedIds = y.stamped := by
  obtain ⟨i1, i2, i3, _, _⟩ := run_noWrap asserts fuel es y0 y h (by rw [h0]; omega)
    (by simp [keys, hm]) (by simp [hp])
  rw [hs] at i2
  rw [ha] at i3
  rw [h0] at i1
  refine ⟨?_, ?_, ?_⟩
  · rw [i3, i1]; simp
  · rw [i3]; simp
  · rw [i3, i2]

/-- C8 at the concrete run: two calls, both accepted, counter 2. -/
theorem counter_counts_accepted_witness :
    Sys.run true 1 demoStart demoEvents = some demoEnd
      ∧ Sys.countSends demoEvents < idModulus
      ∧ demoEnd.conn._messageId = demoEnd.acceptedIds.length
      ∧ demoEnd.acceptedIds.length = Sys.countSends demoEvents
      ∧ demoEnd.acceptedIds = demoEnd.stamped :=
  ⟨by decide, by decide,
   counter_counts_accepted true 1 demoEvents demoStart demoEnd rfl rfl rfl rfl rfl
     (by decide) (by decide)⟩

/-! ## Shutdown -/

/-- C4 on the code: on a connection whose connect is outstanding,
`handleConnect` with an error shuts the sockets down and returns; a
`sendRequest` call after that invokes no callback, registers its entry under
key 1 and starts the write. -/
theorem sendRequest_after_shutdown_is_accepted :
    ∃ s1 e1,
      handleConnect true 1 demoStart.conn true = Except.ok (s1, e1)
        ∧ Effect.socketShutdown ∈ e1
        ∧ s1._pleaseStop = false ∧ s1._stopped = false
        ∧ (sendRequest s1 ⟨0, 9⟩ 7 8).2 = [Effect.asyncWrite 1 ⟨1, 9⟩]
        ∧ (sendRequest s1 ⟨0, 9⟩ 7 8).1.keys = [1] :=
  ⟨_, _, rfl, by decide, rfl, rfl, by decide, by decide⟩

/-- C5 on the code: with one request pending and no handler outstanding,
`shutdown_socket` returns with the entry still in the map and without having
invoked a callback. -/
theorem shutdown_socket_keeps_pending_entry :
    demoPending.keys = [1]
      ∧ shutdown_socket 1 demoPending
      = Except.ok
          ({ _messageId := 1,
             _messageMap := [(1, { _messageId := 1, _onError := some 7, _onSuccess := some 8,
                                   _request := some ⟨1, 9⟩ })],
             _handlercount := 0, _pleaseStop := false, _stopped := false, _ssl := false },
           [Effect.deadlineCancel, Effect.sslShutdown, Effect.socketShutdown,
            Effect.socketReset]) :=
  ⟨rfl, rfl⟩

/-- C6 on the code: a write completion with an error for the pending id 1
invokes that entry's `onError` once with code 100 and its request, and the id
is still a key of the map afterwards, now holding a moved-from item. -/
theorem handleWrite_error_keeps_key :
    demoPending.find 1
        = some { _messageId := 1, _onError := some 7, _onSuccess := some 8,
                 _request := some ⟨1, 9⟩ }
      ∧ handleWrite true { demoPending with _handlercount := 1 } true 1
      = Except.ok
          ({ _messageId := 1,
             _messageMap := [(1, { _messageId := 1, _onError := none, _onSuccess := none,
                                   _request := none })],
             _handlercount := 0, _pleaseStop := false, _stopped := false, _ssl := false },
           [Effect.onError 7 100 (some ⟨1, 9⟩)]) :=
  ⟨rfl, rfl⟩

/-- C10 on the code: a request is sent while the connect is outstanding and its
write fails first. Then the connect is the only operation outstanding, yet
`_handlercount` is already 0: when the connect fails too, `handleConnect`
decrements the counter to -1 and the wait loop of `shutdown_socket` never
exits, whatever the fuel. With assertions `handleConnect` stops at its
assertion instead. -/
theorem shutdown_wait_spins_after_write :
    ∃ y,
      Sys.run false 1 demoStart [Event.sendRequest ⟨0, 9⟩ 7 8, Event.writeDone 1 true] = some y
        ∧ y.connects = 1 ∧ y.reads = 0 ∧ y.writes = []
        ∧ y.conn._handlercount = 0
        ∧ (∀ fuel, handleConnect false fuel y.conn true = Except.error Fault.hang)
        ∧ handleConnect true 1 y.conn true = Except.error Fault.assertion := by
  refine ⟨_, rfl, rfl, rfl, rfl, rfl, ?_, rfl⟩
  intro fuel
  simp only [handleConnect, assertHandlercount, Bool.false_and, Bool.not_true, if_false]
  exact shutdown_socket_of_ne fuel _ (by decide)

/-- In the sequential model `shutdown_socket` returns if and only if
`_handlercount` is 0 on entry, and then one test of the wait loop is enough. -/
theorem shutdown_socket_returns_iff (s : VstConnection) :
    ((∃ fuel r, shutdown_socket fuel s = Except.ok r) ↔ s._handlercount = 0)
      ∧ ((∃ r, shutdown_socket 1 s = Except.ok r) ↔ s._handlercount = 0) := by
  constructor
  · constructor
    · rintro ⟨fuel, r, h⟩
      exact (shutdown_socket_ok h).2.2
    · intro h
      exact ⟨1, _, shutdown_socket_of_zero 0 s h⟩
  · constructor
    · rintro ⟨r, h⟩
      exact (shutdown_socket_ok h).2.2
    · intro h
      exact ⟨_, shutdown_socket_of_zero 0 s h⟩

/-! ## The handler counter on concrete runs -/

/-- C9 on the code: `startWrite` leaves `_handlercount` alone where `startRead`
increments it. On a connection whose connect is outstanding, after one
`sendRequest` two operations are outstanding and the counter is 1. When the
write completes first, the counter is 0 with the connect still outstanding and
`handleConnect` fails its assertion whatever the connect reports. When the
connect fails first and the write completes after the shutdown, `handleWrite`
fails its assertion; without assertions it takes the counter to -1. -/
theorem handlercount_misses_writes :
    ∃ y1 y2 z1 z2,
      (startWrite demoStart.conn 1 ⟨1, 9⟩).1._handlercount = demoStart.conn._handlercount
        ∧ (startRead demoStart.conn).1._handlercount = demoStart.conn._handlercount + 1
        ∧ Sys.run true 1 demoStart [Event.sendRequest ⟨0, 9⟩ 7 8] = some y1
        ∧ y1.conn._handlercount = 1 ∧ y1.outstanding = 2
        ∧ Sys.run true 1 y1 [Event.writeDone 1 true] = some y2
        ∧ y2.conn._handlercount = 0 ∧ y2.outstanding = 1
        ∧ handleConnect true 1 y2.conn false = Except.error Fault.assertion
        ∧ handleConnect true 1 y2.conn true = Except.error Fault.assertion
        ∧ Sys.run true 1 y1 [Event.connectDone true] = some z1
        ∧ z1.writes = [1] ∧ z1.conn._handlercount = 0
        ∧ handleWrite true z1.conn true 1 = Except.error Fault.assertion
        ∧ Sys.run false 1 z1 [Event.writeDone 1 true] = some z2
        ∧ z2.conn._handlercount = -1 :=
  ⟨_, _, _, _, rfl, rfl, rfl, rfl, rfl, rfl, rfl, rfl, rfl, rfl, rfl, rfl, rfl, rfl, rfl, rfl⟩

/-! ## The handler counter in a build with assertions -/

theorem sendRequest_handlercount (s : VstConnection) (request : Request)
    (onError onSuccess : Callback) :
    (sendRequest s request onError onSuccess).1._handlercount = s._handlercount := by
  unfold sendRequest
  simp only
  split
  · rfl
  · simp only [startWrite]; split <;> rfl

theorem settle_sendRequest_ops (y : Sys) (request : Request) (onError onSuccess : Callback) :
    (y.settle (sendRequest y.conn request onError onSuccess)).connects = y.connects
      ∧ (y.settle (sendRequest y.conn request onError onSuccess)).reads = y.reads := by
  unfold sendRequest
  simp only
  split
  · simp [Sys.settle, Sys.absorb]
  · simp only [startWrite]
    split <;> simp [Sys.settle, Sys.absorb]

theorem assertHandlercount_true_ok {s : VstConnection} {u : Unit}
    (h : assertHandlercount true s = Except.ok u) : s._handlercount ≠ 0 := by
  intro hz
  simp [assertHandlercount, hz] at h

theorem handleConnect_counted {fuel : Nat} {s : VstConnection} {error : Bool}
    {r : VstConnection × List Effect} (h : handleConnect true fuel s error = Except.ok r) :
    s._handlercount ≠ 0
      ∧ ((r.1._handlercount = s._handlercount - 1 ∧ r.2 = [])
        ∨ (r.1._handlercount = s._handlercount
            ∧ r.2 = [Effect.deadlineExpires 30, Effect.asyncRead])
        ∨ (r.1._handlercount = 0 ∧ s._handlercount = 1
            ∧ r.2 = [Effect.deadlineCancel, Effect.sslShutdown, Effect.socketShutdown,
                     Effect.socketReset])) := by
  unfold handleConnect at h
  split at h
  · cases h
  · rename_i u hu
    refine ⟨assertHandlercount_true_ok hu, ?_⟩
    split at h
    · injection h with h
      subst h
      by_cases hs : s._ssl <;> by_cases hp : s._pleaseStop <;>
        simp [hs, hp, startRead, startHandshake, decHandlercount]
    · obtain ⟨h1, h2, h3⟩ := shutdown_socket_ok h
      right; right
      simp only [decHandlercount] at h3
      refine ⟨by rw [h1]; simpa [decHandlercount] using h3, by omega, h2⟩

theorem handleRead_counted {s : VstConnection} {error : Bool}
    {r : VstConnection × List Effect} (h : handleRead true s error = Except.ok r) :
    s._handlercount ≠ 0
      ∧ ((r.1._handlercount = s._handlercount - 1 ∧ r.2 = [])
        ∨ (r.1._handlercount = s._handlercount
            ∧ r.2 = [Effect.deadlineExpires 30, Effect.asyncRead])) := by
  unfold handleRead at h
  split at h
  · cases h
  · rename_i u hu
    refine ⟨assertHandlercount_true_ok hu, ?_⟩
    injection h with h
    subst h
    by_cases hp : s._pleaseStop <;> simp [hp, startRead, decHandlercount]

theorem handleWrite_counted {s : VstConnection} {error : Bool} {k : Nat}
    {r : VstConnection × List Effect} (h : handleWrite true s error k = Except.ok r) :
    s._handlercount ≠ 0 ∧ r.1._handlercount = s._handlercount - 1
      ∧ (r.2 = [] ∨ ∃ cb q, r.2 = [Effect.onError cb 100 q]) := by
  unfold handleWrite at h
  split at h
  · cases h
  · rename_i u hu
    refine ⟨assertHandlercount_true_ok hu, ?_⟩
    split at h
    · simp only at h
      split at h
      · cases h
      · rename_i cb hcb
        injection h with h
        subst h
        exact ⟨rfl, Or.inr ⟨cb, _, rfl⟩⟩
    · injection h with h
      subst h
      exact ⟨rfl, Or.inl rfl⟩

/-- With assertions, one event keeps the counter between 0 and the number of
outstanding connects and reads, and keeps at most one connect outstanding, with
no read beside it. -/
theorem step_counted {fuel : Nat} {y y1 : Sys} {e : Event}
    (h : y.step true fuel e = some y1)
    (h0 : 0 ≤ y.conn._handlercount)
    (h1 : y.conn._handlercount ≤ y.connects + y.reads)
    (h2 : y.connects = 0 ∨ (y.connects = 1 ∧ y.reads = 0)) :
    0 ≤ y1.conn._handlercount
      ∧ y1.conn._handlercount ≤ y1.connects + y1.reads
      ∧ (y1.connects = 0 ∨ (y1.connects = 1 ∧ y1.reads = 0)) := by
  cases e with
  | sendRequest request onError onSuccess =>
    simp only [Sys.step, Option.some.injEq] at h
    subst h
    have hc := settle_conn
      { y with
        stamped := y.stamped ++ [(y.conn.stamp request).messageid],
        acceptedIds := if (y.conn.find y.conn.nextMessageId).isNone
          then y.acceptedIds ++ [y.conn.nextMessageId] else y.acceptedIds }
      (sendRequest y.conn request onError onSuccess)
    have ho := settle_sendRequest_ops
      { y with
        stamped := y.stamped ++ [(y.conn.stamp request).messageid],
        acceptedIds := if (y.conn.find y.conn.nextMessageId).isNone
          then y.acceptedIds ++ [y.conn.nextMessageId] else y.acceptedIds }
      request onError onSuccess
    simp only at ho
    rw [hc, sendRequest_handlercount, ho.1, ho.2]
    exact ⟨h0, h1, h2⟩
  | connectDone error =>
    simp only [Sys.step] at h
    split at h
    · cases h
    · rename_i hcon
      split at h
      · cases h
      · rename_i r hr
        injection h with h
        subst h
        obtain ⟨ra, rb⟩ := r
        obtain ⟨hz, hcase⟩ := handleConnect_counted hr
        simp only at hcase
        rcases hcase with ⟨c1, c2⟩ | ⟨c1, c2⟩ | ⟨c1, c3, c2⟩ <;>
          · subst c2
            simp only [Sys.settle, Sys.absorb, List.foldl, c1]
            omega
  | readDone error =>
    simp only [Sys.step] at h
    split at h
    · cases h
    · rename_i hrd
      split at h
      · cases h
      · rename_i r hr
        injection h with h
        subst h
        obtain ⟨ra, rb⟩ := r
        obtain ⟨hz, hcase⟩ := handleRead_counted hr
        simp only at hcase
        rcases hcase with ⟨c1, c2⟩ | ⟨c1, c2⟩ <;>
          · subst c2
            simp only [Sys.settle, Sys.absorb, List.foldl, c1]
            omega
  | writeDone k error =>
    simp only [Sys.step] at h
    split at h
    · split at h
      · cases h
      · rename_i r hr
        injection h with h
        subst h
        obtain ⟨ra, rb⟩ := r
        obtain ⟨hz, c1, hcase⟩ := handleWrite_counted hr
        simp only at hcase c1
        rcases hcase with c2 | ⟨cb, q, c2⟩ <;>
          · subst c2
            simp only [Sys.settle, Sys.absorb, List.foldl, c1]
            omega
    · cases h

theorem run_counted {fuel : Nat} (es : List Event) (y0 y : Sys)
    (h : Sys.run true fuel y0 es = some y)
    (h0 : 0 ≤ y0.conn._handlercount)
    (h1 : y0.conn._handlercount ≤ y0.connects + y0.reads)
    (h2 : y0.connects = 0 ∨ (y0.connects = 1 ∧ y0.reads = 0)) :
    0 ≤ y.conn._handlercount
      ∧ y.conn._handlercount ≤ y.connects + y.reads
      ∧ (y.connects = 0 ∨ (y.connects = 1 ∧ y.reads = 0)) := by
  induction es generalizing y0 with
  | nil =>
    simp only [Sys.run, Option.some.injEq] at h
    subst h
    exact ⟨h0, h1, h2⟩
  | cons e es ih =>
    obtain ⟨y1, s1, s2⟩ := run_cons h
    obtain ⟨a, b, c⟩ := step_counted s1 h0 h1 h2
    exact ih y1 s2 a b c

/-- In a build with assertions, on every run from a connection whose counter
lies between 0 and the number of outstanding connects and reads, with at most
one connect outstanding and no read beside it (a connection with nothing
outstanding, or one whose connect has just been started), whenever a connect
is outstanding and completes with an error, `handleConnect` either fails its
assertion or enters the wait loop of `shutdown_socket` with `_handlercount` at
0 and returns: the loop never spins. -/
theorem shutdown_wait_exits_with_assertions (fuel k : Nat) (es : List Event) (y0 y : Sys)
    (h0 : 0 ≤ y0.conn._handlercount)
    (h1 : y0.conn._handlercount ≤ y0.connects + y0.reads)
    (h2 : y0.connects = 0 ∨ (y0.connects = 1 ∧ y0.reads = 0))
    (hr : Sys.run true fuel y0 es = some y)
    (hcon : y.connects ≠ 0) :
    handleConnect true (k + 1) y.conn true = Except.error Fault.assertion
      ∨ ∃ r, handleConnect true (k + 1) y.conn true = Except.ok r
          ∧ r.1._handlercount = 0 := by
  obtain ⟨b0, b1, b2⟩ := run_counted es y0 y hr h0 h1 h2
  have hone : y.connects = 1 ∧ y.reads = 0 := by
    rcases b2 with b2 | b2
    · exact absurd b2 hcon
    · exact b2
  by_cases hz : y.conn._handlercount = 0
  · left
    simp [handleConnect, assertHandlercount, hz]
  · right
    have h1 : y.conn._handlercount = 1 := by
      have := hone.1
      have := hone.2
      omega
    have hd : (decHandlercount y.conn)._handlercount = 0 := by simp [decHandlercount, h1]
    refine ⟨({ decHandlercount y.conn with _pleaseStop := false, _stopped := false },
      [Effect.deadlineCancel, Effect.sslShutdown, Effect.socketShutdown,
       Effect.socketReset]), ?_, hd⟩
    simp only [handleConnect, assertHandlercount, h1]
    simp only [one_ne_zero, decide_False, Bool.and_false, Bool.not_true, if_false]
    exact shutdown_socket_of_zero k _ hd

/-- The connection with its connect outstanding, after one request: the failed
connect shuts the sockets down and returns. -/
theorem shutdown_wait_exits_with_assertions_witness :
    Sys.run true 1 demoStart [Event.sendRequest ⟨0, 9⟩ 7 8]
        = some { demoStart with
            conn := (sendRequest demoStart.conn ⟨0, 9⟩ 7 8).1,
            writes := [1], stamped := [1], acceptedIds := [1] }
      ∧ (handleConnect true 1
            (sendRequest demoStart.conn ⟨0, 9⟩ 7 8).1 true = Except.error Fault.assertion
        ∨ ∃ r, handleConnect true 1 (sendRequest demoStart.conn ⟨0, 9⟩ 7 8).1 true
            = Except.ok r ∧ r.1._handlercount = 0) :=
  ⟨by decide,
   shutdown_wait_exits_with_assertions 1 0 [Event.sendRequest ⟨0, 9⟩ 7 8]
     demoStart
     { demoStart with
       conn := (sendRequest demoStart.conn ⟨0, 9⟩ 7 8).1,
       writes := [1], stamped := [1], acceptedIds := [1] }
     (by decide) (by decide) (by decide) (by decide) (by decide)⟩

/-! ## Which callbacks are invoked -/

theorem mem_keys_of_lookup {m : List (Nat × MapItem)} {k : Nat} {item : MapItem}
    (h : m.lookup k = some item) : k ∈ m.map Prod.fst := by
  by_contra hn
  rw [(lookup_eq_none_iff_not_mem_keys m k).2 hn] at h
  cases h

theorem foldl_absorb_calls (effs : List Effect) (y : Sys)
    (hy : ∀ e ∈ y.calls, ∃ cb q, e = Effect.onError cb 100 q)
    (he : ∀ e ∈ effs, (∀ cb, e ≠ Effect.onSuccess cb)
      ∧ ∀ cb c q, e = Effect.onError cb c q → c = 100) :
    ∀ e ∈ (effs.foldl Sys.absorb y).calls, ∃ cb q, e = Effect.onError cb 100 q := by
  induction effs generalizing y with
  | nil => exact hy
  | cons a as ih =>
    rw [List.foldl_cons]
    apply ih
    · intro e hmem
      cases a with
      | onError cb c q =>
        simp only [Sys.absorb, List.mem_append, List.mem_singleton] at hmem
        rcases hmem with hmem | hmem
        · exact hy e hmem
        · have hc := (he _ (List.mem_cons_self _ _)).2 cb c q rfl
          subst hc
          exact ⟨cb, q, hmem⟩
      | onSuccess cb => exact absurd rfl ((he _ (List.mem_cons_self _ _)).1 cb)
      | _ => exact hy e hmem
    · intro e hmem
      exact he e (List.mem_cons_of_mem _ hmem)

theorem startRead_effects (s : VstConnection) :
    ∀ x ∈ (startRead s).2, x = Effect.deadlineExpires 30 ∨ x = Effect.asyncRead := by
  intro x hx
  unfold startRead at hx
  split at hx
  · simp at hx
  · simpa using hx

theorem sendRequest_effects (s : VstConnection) (request : Request)
    (onError onSuccess : Callback) :
    ∀ e ∈ (sendRequest s request onError onSuccess).2,
      (∀ cb, e ≠ Effect.onSuccess cb) ∧ ∀ cb c q, e = Effect.onError cb c q → c = 100 := by
  intro e he
  unfold sendRequest at he
  simp only at he
  split at he
  · simp only [List.mem_singleton] at he
    subst he
    exact ⟨fun cb h => (nomatch h), fun cb c q h => (by cases h; rfl)⟩
  · simp only [startWrite] at he
    split at he
    · simp at he
    · simp only [List.mem_singleton] at he
      subst he
      exact ⟨fun cb h => (nomatch h), fun cb c q h => (nomatch h)⟩

theorem handleConnect_effects {asserts : Bool} {fuel : Nat} {s : VstConnection} {error : Bool}
    {r : VstConnection × List Effect} (h : handleConnect asserts fuel s error = Except.ok r) :
    ∀ e ∈ r.2, (∀ cb, e ≠ Effect.onSuccess cb)
      ∧ ∀ cb c q, e = Effect.onError cb c q → c = 100 := by
  unfold handleConnect at h
  split at h
  · cases h
  · split at h
    · injection h with h
      subst h
      intro e he
      have hsub : e = Effect.deadlineExpires 30 ∨ e = Effect.asyncRead := by
        simp only at he
        split at he
        · simp [startHandshake] at he
        · exact startRead_effects s e he
      rcases hsub with h1 | h1 <;> subst h1 <;>
        exact ⟨fun cb h => (nomatch h), fun cb c q h => (nomatch h)⟩
    · obtain ⟨_, h2, _⟩ := shutdown_socket_ok h
      rw [h2]
      intro e he
      simp at he
      rcases he with he | he | he | he <;> subst he <;>
        exact ⟨fun cb h => (nomatch h), fun cb c q h => (nomatch h)⟩

theorem handleRead_effects {asserts : Bool} {s : VstConnection} {error : Bool}
    {r : VstConnection × List Effect} (h : handleRead asserts s error = Except.ok r) :
    ∀ e ∈ r.2, (∀ cb, e ≠ Effect.onSuccess cb)
      ∧ ∀ cb c q, e = Effect.onError cb c q → c = 100 := by
  unfold handleRead at h
  split at h
  · cases h
  · injection h with h
    subst h
    intro e he
    rcases startRead_effects s e he with h1 | h1 <;> subst h1 <;>
      exact ⟨fun cb h => (nomatch h), fun cb c q h => (nomatch h)⟩

theorem handleWrite_effects {asserts : Bool} {s : VstConnection} {error : Bool} {k : Nat}
    {r : VstConnection × List Effect} (h : handleWrite asserts s error k = Except.ok r) :
    ∀ e ∈ r.2, (∀ cb, e ≠ Effect.onSuccess cb)
      ∧ ∀ cb c q, e = Effect.onError cb c q → c = 100 := by
  unfold handleWrite at h
  split at h
  · cases h
  · split at h
    · simp only at h
      split at h
      · cases h
      · injection h with h
        subst h
        intro e he
        simp only [List.mem_singleton] at he
        subst he
        exact ⟨fun cb h => (nomatch h), fun cb c q h => (by cases h; rfl)⟩
    · injection h with h
      subst h
      intro e he
      simp at he

theorem step_calls {asserts : Bool} {fuel : Nat} {y y1 : Sys} {e : Event}
    (h : y.step asserts fuel e = some y1)
    (hy : ∀ c ∈ y.calls, ∃ cb q, c = Effect.onError cb 100 q) :
    ∀ c ∈ y1.calls, ∃ cb q, c = Effect.onError cb 100 q := by
  cases e with
  | sendRequest request onError onSuccess =>
    simp only [Sys.step, Option.some.injEq] at h
    subst h
    exact foldl_absorb_calls _ _ hy (sendRequest_effects _ _ _ _)
  | connectDone error =>
    simp only [Sys.step] at h
    split at h
    · cases h
    · split at h
      · cases h
      · rename_i r hr
        injection h with h
        subst h
        exact foldl_absorb_calls _ _ hy (handleConnect_effects hr)
  | readDone error =>
    simp only [Sys.step] at h
    split at h
    · cases h
    · split at h
      · cases h
      · rename_i r hr
        injection h with h
        subst h
        exact foldl_absorb_calls _ _ hy (handleRead_effects hr)
  | writeDone k error =>
    simp only [Sys.step] at h
    split at h
    · split at h
      · cases h
      · rename_i r hr
        injection h with h
        subst h
        exact foldl_absorb_calls _ _ hy (handleWrite_effects hr)
    · cases h

theorem run_calls {asserts : Bool} {fuel : Nat} (es : List Event) (y0 y : Sys)
    (hy : ∀ c ∈ y0.calls, ∃ cb q, c = Effect.onError cb 100 q)
    (h : Sys.run asserts fuel y0 es = some y) :
    ∀ c ∈ y.calls, ∃ cb q, c = Effect.onError cb 100 q := by
  induction es generalizing y0 with
  | nil =>
    simp only [Sys.run, Option.some.injEq] at h
    subst h
    exact hy
  | cons e es ih =>
    obtain ⟨y1, s1, s2⟩ := run_cons h
    exact ih y1 (step_calls s1 hy) s2

/-- No run invokes an `OnSuccessCallback`: every callback invocation made along
any sequence of events is an `onError` call with code 100. -/
theorem callbacks_are_onError_100 (asserts : Bool) (fuel : Nat) (es : List Event)
    (y0 y : Sys) (h0 : y0.calls = [])
    (h : Sys.run asserts fuel y0 es = some y) :
    ∀ c ∈ y.calls, ∃ cb q, c = Effect.onError cb 100 q :=
  run_calls es y0 y (by simp [h0]) h

/-- The first concrete run makes one callback invocation, an `onError` with code 100. -/
theorem callbacks_are_onError_100_witness :
    Sys.run true 1 demoStart demoEvents = some demoEnd
      ∧ demoEnd.calls = [Effect.onError 7 100 (some ⟨1, 9⟩)]
      ∧ ∀ c ∈ demoEnd.calls, ∃ cb q, c = Effect.onError cb 100 q :=
  ⟨by decide, rfl, callbacks_are_onError_100 true 1 demoEvents demoStart demoEnd rfl (by decide)⟩

/-- A write completion with an error for a pending id whose entry holds a
callback invokes that entry's `onError` once, with code 100 and the entry's
request; the keys of the map and the entries under every other key stay as they
were. A write completion without error invokes nothing and changes only the
handler counter. -/
theorem handleWrite_delivers_error (asserts : Bool) (s : VstConnection) (k : Nat)
    (item : MapItem) (cb : Callback)
    (hk : s.find k = some item) (hcb : item._onError = some cb)
    (hh : s._handlercount ≠ 0) :
    (∃ s1, handleWrite asserts s true k
          = Except.ok (s1, [Effect.onError cb 100 item._request])
        ∧ s1.keys = s.keys
        ∧ (∀ j, j ≠ k → s1.find j = s.find j)
        ∧ s1._messageId = s._messageId)
      ∧ handleWrite asserts s false k = Except.ok (decHandlercount s, []) := by
  simp only [find] at hk
  constructor
  · refine ⟨decHandlercount { s with _messageMap := moveOut s._messageMap k }, ?_, ?_, ?_, rfl⟩
    · simp [handleWrite, assertHandlercount, hh, hk, hcb]
    · simp only [keys, decHandlercount]
      exact keys_moveOut_of_mem _ _ (mem_keys_of_lookup hk)
    · intro j hj
      simp only [find, decHandlercount]
      exact lookup_moveOut_of_ne _ _ _ hj
  · simp [handleWrite, assertHandlercount, hh]

/-- The error delivery at the connection with one pending request. -/
theorem handleWrite_delivers_error_witness :
    ∃ s1, handleWrite true { demoPending with _handlercount := 1 } true 1
          = Except.ok (s1, [Effect.onError 7 100 (some ⟨1, 9⟩)])
        ∧ s1.keys = [1] :=
  have h := (handleWrite_delivers_error true { demoPending with _handlercount := 1 } 1
    { _messageId := 1, _onError := some 7, _onSuccess := some 8, _request := some ⟨1, 9⟩ }
    7 rfl rfl (by decide)).1
  ⟨h.choose, h.choose_spec.1, h.choose_spec.2.1⟩

/-! ## Every accepted request is answered once -/

end Fuerte
